import Mathlib

/-!
# Verification of the orbiter anonymous-usage reporter

Shallow embedding of `apollo-router/src/orbiter/mod.rs`: the config-shape
walker `visit_config`, the CLI-argument summariser, the factory decorator
`create`, the machine-id protocol `get_machine_id`, and the dispatcher
`send`, together with proofs of the specified properties.
-/

set_option autoImplicit false

namespace Orbiter

/-- A JSON value, mirroring `serde_json::Value`.  Numbers are modelled as
integers: the walker only clones numbers, never inspects them, so the
carrier of the `Number` payload is irrelevant to every property proved
here.  Objects are association lists in document order (`serde_json::Map`
iteration order). -/
inductive JsonValue where
  | null : JsonValue
  | bool (b : Bool) : JsonValue
  | num (n : Int) : JsonValue
  | str (s : String) : JsonValue
  | arr (a : List JsonValue) : JsonValue
  | obj (o : List (String × JsonValue)) : JsonValue
deriving Repr

/-- The `usage` map (`serde_json::Map<String, Value>`), modelled as an
association list with at most one binding per key.  `insertUM` overwrites
the existing binding, as `Map::insert` does; only lookup and membership
are used in the properties, so the ordering of the backing list is
irrelevant. -/
abbrev UsageMap := List (String × JsonValue)

/-- `Map::insert`: overwrite any existing binding for `k` with `v`. -/
def insertUM (m : UsageMap) (k : String) (v : JsonValue) : UsageMap :=
  (k, v) :: m.filter (fun kv => ¬ (kv.1 = k))

/-- `Map::get`: the value bound to `k`, if any. -/
def lookupUM (m : UsageMap) (k : String) : Option JsonValue :=
  (m.find? (fun kv => kv.1 == k)).map (fun kv => kv.2)

/-- Key `format!("configuration.{}", path)`. -/
def cfgKey (path : String) : String := "configuration." ++ path

/-- Key `format!("configuration.{}.len", path)`. -/
def lenKey (path : String) : String := "configuration." ++ path ++ ".len"

mutual

/-- `visit_config(usage, path, value)` from the source: flatten the shape
of a JSON value into the usage map. -/
def visit_config (usage : UsageMap) (path : String) (value : JsonValue) :
    UsageMap :=
  match value with
  | .null => usage
  | .bool b => insertUM usage (cfgKey path) (.bool b)
  | .num n => insertUM usage (cfgKey path) (.num n)
  | .str _ => insertUM usage (cfgKey path) (.str "set")
  | .arr a => insertUM (visit_arr usage path a) (lenKey path) (.num a.length)
  | .obj o => visit_obj usage path o

/-- The `for v in a { visit_config(usage, path, v) }` loop: each array
element is re-walked under the same path, with no index appended. -/
def visit_arr (usage : UsageMap) (path : String) : List JsonValue → UsageMap
  | [] => usage
  | v :: rest => visit_arr (visit_config usage path v) path rest

/-- The `for (k, v) in o { visit_config(usage, format!("{}.{}", path, k), v) }`
loop over an object's entries, in document order. -/
def visit_obj (usage : UsageMap) (path : String) :
    List (String × JsonValue) → UsageMap
  | [] => usage
  | (k, v) :: rest => visit_obj (visit_config usage (path ++ "." ++ k) v) path rest

end

/-- The loop in `send_anonymous_metrics_to_orbiter` that seeds the usage
map: starting from `Map::new()`, each (first-party) plugin's configuration
is walked under the plugin's name as root path. -/
def walkPlugins (plugins : List (String × JsonValue)) : UsageMap :=
  plugins.foldl (fun u p => visit_config u p.1 p.2) []

mutual

/-- Modelled from the spec: the per-variant emission table of §4.2, as the
ordered list of `(key, value)` writes the walker is required to perform at
`path`: null emits nothing; a boolean or number is emitted verbatim at
`configuration.path`; a string emits the literal `"set"`; an array emits
its children's writes (each child under the same path, in document order)
followed by `configuration.path.len`; an object emits only its children's
writes, each child `k` under `path.k`, in document order. -/
def specEmits (path : String) (value : JsonValue) : List (String × JsonValue) :=
  match value with
  | .null => []
  | .bool b => [(cfgKey path, .bool b)]
  | .num n => [(cfgKey path, .num n)]
  | .str _ => [(cfgKey path, .str "set")]
  | .arr a => specEmitsArr path a ++ [(lenKey path, .num a.length)]
  | .obj o => specEmitsObj path o

/-- Emissions of an array's elements, concatenated in document order. -/
def specEmitsArr (path : String) : List JsonValue → List (String × JsonValue)
  | [] => []
  | v :: rest => specEmits path v ++ specEmitsArr path rest

/-- Emissions of an object's entries, concatenated in document order. -/
def specEmitsObj (path : String) :
    List (String × JsonValue) → List (String × JsonValue)
  | [] => []
  | (k, v) :: rest => specEmits (path ++ "." ++ k) v ++ specEmitsObj path rest

end

mutual

/-- All arrays occurring in a walked document, as `(walk path, length)`
pairs, listed in the order in which the walker finishes them (children
before the array's own entry). -/
def arraysOf (path : String) (value : JsonValue) : List (String × Nat) :=
  match value with
  | .null | .bool _ | .num _ | .str _ => []
  | .arr a => arraysOfArr path a ++ [(path, a.length)]
  | .obj o => arraysOfObj path o

/-- Arrays occurring in an array's elements (walked under the same path). -/
def arraysOfArr (path : String) : List JsonValue → List (String × Nat)
  | [] => []
  | v :: rest => arraysOf path v ++ arraysOfArr path rest

/-- Arrays occurring in an object's entries. -/
def arraysOfObj (path : String) : List (String × JsonValue) → List (String × Nat)
  | [] => []
  | (k, v) :: rest => arraysOf (path ++ "." ++ k) v ++ arraysOfObj path rest

end

mutual

/-- All dotted walk paths of a document: the root path plus, recursively,
the paths of array elements (unchanged) and of object entries (extended by
the entry's key).  These paths are built from the root path and object keys
only — array indices never enter them. -/
def docPaths (path : String) (value : JsonValue) : List String :=
  match value with
  | .null | .bool _ | .num _ | .str _ => [path]
  | .arr a => path :: docPathsArr path a
  | .obj o => path :: docPathsObj path o

/-- Walk paths occurring in an array's elements. -/
def docPathsArr (path : String) : List JsonValue → List String
  | [] => []
  | v :: rest => docPaths path v ++ docPathsArr path rest

/-- Walk paths occurring in an object's entries. -/
def docPathsObj (path : String) : List (String × JsonValue) → List String
  | [] => []
  | (k, v) :: rest => docPaths (path ++ "." ++ k) v ++ docPathsObj path rest

end

/-- One iteration of the `Opt::command().get_arguments().for_each(..)` loop
in `send_anonymous_metrics_to_orbiter`: `defaults` is
`a.get_default_values()`, `rawValues` is `matches.get_raw(a.get_id())`
(`none` when the argument is absent from the parse), both as ordered lists
of strings. -/
def summariseArg (usage : UsageMap) (id : String) (defaults : List String)
    (rawValues : Option (List String)) : UsageMap :=
  match rawValues with
  | none => usage
  | some values =>
    if defaults ≠ values then
      insertUM usage ("args." ++ id) (.str "set")
    else if defaults.isEmpty then
      insertUM usage ("args." ++ id) (.bool true)
    else usage

/-- The factory decorator's `create` (lines 87–111).  `inner` is the result
of `self.delegate.create(..).await`; `telemetryDisabledVar` is the value of
the environment variable `APOLLO_TELEMETRY_DISABLED` (`none` when unset;
`Option.getD _ ""` models `unwrap_or_default`).  The returned `Bool` is
whether the reporting thread is spawned; every reporting side effect (the
machine-id file write, the HTTP request) happens only on that thread, so
`false` means no reporting side effect at all. -/
def create {E F : Type} (inner : Except E F) (telemetryDisabledVar : Option String) :
    Except E F × Bool :=
  match inner with
  | .error e => (.error e, false)
  | .ok f => (.ok f, telemetryDisabledVar.getD "" != "true")

/-- `get_machine_id()` (lines 180–195), with its effects passed explicitly:
`fs = some c` means the machine-id file exists and reading yields `c` (a
failed read collapses to the empty string via `unwrap_or_default`, i.e. to
unparseable contents); `fs = none` means the file is absent.  The external
`uuid` crate is a parameter: `parse` is `str::parse::<Uuid>` and `toStr` is
`Uuid::to_string`; `fresh` is the UUID produced by `Uuid::new_v4()`, and
`writeOk` is whether `fs::write` succeeds (a failed write is logged and
ignored).  Returns the id used for this run and the resulting file state. -/
def get_machine_id {α : Type} (parse : String → Option α) (toStr : α → String)
    (fs : Option String) (fresh : α) (writeOk : Bool) : α × Option String :=
  match fs with
  | some contents =>
    match parse contents with
    | some id => (id, some contents)
    | none => (fresh, some contents)
  | none => (fresh, if writeOk then some (toStr fresh) else none)

/-- `send(body)` (lines 160–169), with the outcomes of its four fallible
steps passed as parameters: `pretty` is `serde_json::to_string_pretty(&body)`,
`compact` is `serde_json::to_value(body)`, `httpResp` is
`client.post(..).send()` (on success an HTTP status code and body — note the
status is never inspected: a non-2xx response is not an error), and
`readBody` is `resp.text()`.  Each error is modelled by its display form.
Returns the debug-log lines emitted and the `Result` value. -/
def send (pretty : Except String String) (compact : Except String String)
    (httpResp : Except String (Nat × String)) (readBody : Except String String) :
    List String × Except String String :=
  match pretty with
  | .error e => ([], .error e)
  | .ok p =>
    match compact with
    | .error e => (["anonymous usage: " ++ p], .error e)
    | .ok _ =>
      match httpResp with
      | .error e => (["anonymous usage: " ++ p], .error e)
      | .ok _ =>
        match readBody with
        | .error e => (["anonymous usage: " ++ p], .error e)
        | .ok t => (["anonymous usage: " ++ p], .ok t)

/-- Lines 155–157: `if let Err(e) = send(body) { tracing::debug!(..) }`.
The worker consumes `send`'s result, logging a failure at debug level and
discarding it; the return type has no error channel and contains no retry,
so no failure can propagate to (or block) the host. -/
def dispatchReport (sendResult : List String × Except String String) : List String :=
  sendResult.1 ++
    match sendResult.2 with
    | .error e => ["failed to send anonymous usage: " ++ e]
    | .ok _ => []

/-- The anonymisation contract for a single map value: a boolean, a number,
or the fixed token `"set"` — never a user-supplied string, array or object
literal. -/
def AnonValue (v : JsonValue) : Prop :=
  (∃ b, v = JsonValue.bool b) ∨ (∃ n, v = JsonValue.num n) ∨ v = JsonValue.str "set"

/-- Folding a list of writes into a map, left to right. -/
def foldIns (u : UsageMap) (l : List (String × JsonValue)) : UsageMap :=
  l.foldl (fun m kv => insertUM m kv.1 kv.2) u

theorem lookupUM_nil (k : String) : lookupUM [] k = none := rfl

theorem lookupUM_cons (k k' : String) (v : JsonValue) (m : UsageMap) :
    lookupUM ((k, v) :: m) k' = if k = k' then some v else lookupUM m k' := by
  by_cases h : k = k'
  · simp [lookupUM, List.find?_cons_of_pos, h]
  · rw [if_neg h]
    unfold lookupUM
    rw [List.find?_cons_of_neg]
    simpa using h

theorem lookupUM_insert_self (m : UsageMap) (k : String) (v : JsonValue) :
    lookupUM (insertUM m k v) k = some v := by
  simp [insertUM, lookupUM_cons]

theorem lookupUM_filter_ne (m : UsageMap) (k k' : String) (h : k' ≠ k) :
    lookupUM (m.filter (fun kv => ¬ (kv.1 = k))) k' = lookupUM m k' := by
  induction m with
  | nil => rfl
  | cons hd tl ih =>
    obtain ⟨a, b⟩ := hd
    by_cases ha : a = k
    · have hak : ¬ (a = k') := fun hc => h (hc ▸ ha ▸ rfl)
      rw [show ((a, b) :: tl).filter (fun kv => ¬ (kv.1 = k)) =
          tl.filter (fun kv => ¬ (kv.1 = k)) by simp [ha]]
      rw [ih, lookupUM_cons, if_neg hak]
    · rw [show ((a, b) :: tl).filter (fun kv => ¬ (kv.1 = k)) =
          (a, b) :: tl.filter (fun kv => ¬ (kv.1 = k)) by simp [ha]]
      rw [lookupUM_cons, lookupUM_cons, ih]

theorem lookupUM_insert_ne (m : UsageMap) (k k' : String) (v : JsonValue)
    (h : k' ≠ k) : lookupUM (insertUM m k v) k' = lookupUM m k' := by
  rw [insertUM, lookupUM_cons, if_neg (fun hc => h hc.symm), lookupUM_filter_ne m k k' h]

theorem mem_insertUM {kv : String × JsonValue} {m : UsageMap} {k : String}
    {v : JsonValue} (h : kv ∈ insertUM m k v) : kv = (k, v) ∨ kv ∈ m := by
  rcases List.mem_cons.mp h with h' | h'
  · exact Or.inl h'
  · exact Or.inr (List.mem_filter.mp h').1

theorem foldIns_nil (u : UsageMap) : foldIns u [] = u := rfl

theorem foldIns_cons (u : UsageMap) (kv : String × JsonValue)
    (l : List (String × JsonValue)) :
    foldIns u (kv :: l) = foldIns (insertUM u kv.1 kv.2) l := rfl

theorem foldIns_append (u : UsageMap) (l1 l2 : List (String × JsonValue)) :
    foldIns u (l1 ++ l2) = foldIns (foldIns u l1) l2 := by
  simp [foldIns, List.foldl_append]

theorem mem_foldIns {kv : String × JsonValue} {l : List (String × JsonValue)} :
    ∀ {u : UsageMap}, kv ∈ foldIns u l → kv ∈ u ∨ kv ∈ l := by
  induction l with
  | nil => exact fun h => Or.inl h
  | cons hd tl ih =>
    intro u h
    rcases ih (u := insertUM u hd.1 hd.2) h with h' | h'
    · rcases mem_insertUM h' with h'' | h''
      · exact Or.inr (by simp [h''])
      · exact Or.inl h''
    · exact Or.inr (List.mem_cons_of_mem hd h')

theorem lookup_foldIns_of_no_key {l : List (String × JsonValue)} {key : String} :
    ∀ {u : UsageMap}, (∀ kv ∈ l, kv.1 ≠ key) →
      lookupUM (foldIns u l) key = lookupUM u key := by
  induction l with
  | nil => exact fun _ => rfl
  | cons hd tl ih =>
    intro u h
    rw [foldIns_cons, ih (fun kv hm => h kv (List.mem_cons_of_mem hd hm)),
      lookupUM_insert_ne]
    exact Ne.symm (h hd (List.mem_cons_self hd tl))

theorem lookup_foldIns_last (u : UsageMap) (l1 l2 : List (String × JsonValue))
    (key : String) (v : JsonValue) (h : ∀ kv ∈ l2, kv.1 ≠ key) :
    lookupUM (foldIns u (l1 ++ (key, v) :: l2)) key = some v := by
  rw [foldIns_append, foldIns_cons, lookup_foldIns_of_no_key h,
    lookupUM_insert_self]

theorem countP_one_last {l : List (String × JsonValue)} {key : String}
    {v : JsonValue} (hc : l.countP (fun kv => kv.1 == key) = 1)
    (hm : (key, v) ∈ l) :
    ∃ l1 l2, l = l1 ++ (key, v) :: l2 ∧ ∀ kv ∈ l2, kv.1 ≠ key := by
  obtain ⟨l1, l2, rfl⟩ := List.append_of_mem hm
  refine ⟨l1, l2, rfl, ?_⟩
  have hsplit := hc
  rw [List.countP_append] at hsplit
  have hcons : List.countP (fun kv => kv.1 == key) ((key, v) :: l2) =
      List.countP (fun kv => kv.1 == key) l2 + 1 :=
    List.countP_cons_of_pos _ _ (by simp)
  rw [hcons] at hsplit
  have h2 : List.countP (fun kv => kv.1 == key) l2 = 0 := by omega
  intro kv hkv
  have := List.countP_eq_zero.mp h2 kv hkv
  simpa using this

mutual

theorem visit_config_eq_foldIns (u : UsageMap) (p : String) (v : JsonValue) :
    visit_config u p v = foldIns u (specEmits p v) := by
  match v with
  | .null => rfl
  | .bool b => rfl
  | .num n => rfl
  | .str s => rfl
  | .arr a =>
    show insertUM (visit_arr u p a) (lenKey p) (.num a.length) =
      foldIns u (specEmitsArr p a ++ [(lenKey p, .num a.length)])
    rw [foldIns_append, ← visit_arr_eq_foldIns u p a]
    rfl
  | .obj o => exact visit_obj_eq_foldIns u p o

theorem visit_arr_eq_foldIns (u : UsageMap) (p : String) (l : List JsonValue) :
    visit_arr u p l = foldIns u (specEmitsArr p l) := by
  match l with
  | [] => rfl
  | v :: rest =>
    show visit_arr (visit_config u p v) p rest =
      foldIns u (specEmits p v ++ specEmitsArr p rest)
    rw [foldIns_append, ← visit_config_eq_foldIns u p v,
      visit_arr_eq_foldIns (visit_config u p v) p rest]

theorem visit_obj_eq_foldIns (u : UsageMap) (p : String)
    (l : List (String × JsonValue)) :
    visit_obj u p l = foldIns u (specEmitsObj p l) := by
  match l with
  | [] => rfl
  | (k, v) :: rest =>
    show visit_obj (visit_config u (p ++ "." ++ k) v) p rest =
      foldIns u (specEmits (p ++ "." ++ k) v ++ specEmitsObj p rest)
    rw [foldIns_append, ← visit_config_eq_foldIns u (p ++ "." ++ k) v,
      visit_obj_eq_foldIns (visit_config u (p ++ "." ++ k) v) p rest]

end

mutual

theorem anon_specEmits {kv : String × JsonValue} (p : String) (v : JsonValue)
    (h : kv ∈ specEmits p v) : AnonValue kv.2 := by
  match v with
  | .null => simp [specEmits] at h
  | .bool b =>
    rw [show specEmits p (.bool b) = [(cfgKey p, .bool b)] from rfl,
      List.mem_singleton] at h
    exact Or.inl ⟨b, by rw [h]⟩
  | .num n =>
    rw [show specEmits p (.num n) = [(cfgKey p, .num n)] from rfl,
      List.mem_singleton] at h
    exact Or.inr (Or.inl ⟨n, by rw [h]⟩)
  | .str s =>
    rw [show specEmits p (.str s) = [(cfgKey p, .str "set")] from rfl,
      List.mem_singleton] at h
    exact Or.inr (Or.inr (by rw [h]))
  | .arr a =>
    rw [show specEmits p (.arr a) =
      specEmitsArr p a ++ [(lenKey p, .num a.length)] from rfl,
      List.mem_append] at h
    rcases h with h | h
    · exact anon_specEmitsArr p a h
    · rw [List.mem_singleton] at h
      exact Or.inr (Or.inl ⟨a.length, by rw [h]⟩)
  | .obj o => exact anon_specEmitsObj p o h

theorem anon_specEmitsArr {kv : String × JsonValue} (p : String)
    (l : List JsonValue) (h : kv ∈ specEmitsArr p l) : AnonValue kv.2 := by
  match l with
  | [] => simp [specEmitsArr] at h
  | v :: rest =>
    rw [show specEmitsArr p (v :: rest) =
      specEmits p v ++ specEmitsArr p rest from rfl, List.mem_append] at h
    rcases h with h | h
    · exact anon_specEmits p v h
    · exact anon_specEmitsArr p rest h

theorem anon_specEmitsObj {kv : String × JsonValue} (p : String)
    (l : List (String × JsonValue)) (h : kv ∈ specEmitsObj p l) :
    AnonValue kv.2 := by
  match l with
  | [] => simp [specEmitsObj] at h
  | (k, v) :: rest =>
    rw [show specEmitsObj p ((k, v) :: rest) =
      specEmits (p ++ "." ++ k) v ++ specEmitsObj p rest from rfl,
      List.mem_append] at h
    rcases h with h | h
    · exact anon_specEmits (p ++ "." ++ k) v h
    · exact anon_specEmitsObj p rest h

end

mutual

theorem keys_specEmits {kv : String × JsonValue} (p : String) (v : JsonValue)
    (h : kv ∈ specEmits p v) :
    ∃ q ∈ docPaths p v, kv.1 = cfgKey q ∨ kv.1 = lenKey q := by
  match v with
  | .null => simp [specEmits] at h
  | .bool b =>
    rw [show specEmits p (.bool b) = [(cfgKey p, .bool b)] from rfl,
      List.mem_singleton] at h
    exact ⟨p, by simp [docPaths], Or.inl (by rw [h])⟩
  | .num n =>
    rw [show specEmits p (.num n) = [(cfgKey p, .num n)] from rfl,
      List.mem_singleton] at h
    exact ⟨p, by simp [docPaths], Or.inl (by rw [h])⟩
  | .str s =>
    rw [show specEmits p (.str s) = [(cfgKey p, .str "set")] from rfl,
      List.mem_singleton] at h
    exact ⟨p, by simp [docPaths], Or.inl (by rw [h])⟩
  | .arr a =>
    rw [show specEmits p (.arr a) =
      specEmitsArr p a ++ [(lenKey p, .num a.length)] from rfl,
      List.mem_append] at h
    have hdp : docPaths p (.arr a) = p :: docPathsArr p a := rfl
    rcases h with h | h
    · obtain ⟨q, hq, hk⟩ := keys_specEmitsArr p a h
      refine ⟨q, ?_, hk⟩
      rw [hdp]
      exact List.mem_cons_of_mem p hq
    · rw [List.mem_singleton] at h
      refine ⟨p, ?_, Or.inr (by rw [h])⟩
      rw [hdp]
      exact List.mem_cons_self p _
  | .obj o =>
    obtain ⟨q, hq, hk⟩ := keys_specEmitsObj p o h
    refine ⟨q, ?_, hk⟩
    rw [show docPaths p (.obj o) = p :: docPathsObj p o from rfl]
    exact List.mem_cons_of_mem p hq

theorem keys_specEmitsArr {kv : String × JsonValue} (p : String)
    (l : List JsonValue) (h : kv ∈ specEmitsArr p l) :
    ∃ q ∈ docPathsArr p l, kv.1 = cfgKey q ∨ kv.1 = lenKey q := by
  match l with
  | [] => simp [specEmitsArr] at h
  | v :: rest =>
    rw [show specEmitsArr p (v :: rest) =
      specEmits p v ++ specEmitsArr p rest from rfl, List.mem_append] at h
    have hsplit : docPathsArr p (v :: rest) =
      docPaths p v ++ docPathsArr p rest := rfl
    rcases h with h | h
    · obtain ⟨q, hq, hk⟩ := keys_specEmits p v h
      refine ⟨q, ?_, hk⟩
      rw [hsplit]
      exact List.mem_append_left _ hq
    · obtain ⟨q, hq, hk⟩ := keys_specEmitsArr p rest h
      refine ⟨q, ?_, hk⟩
      rw [hsplit]
      exact List.mem_append_right _ hq

theorem keys_specEmitsObj {kv : String × JsonValue} (p : String)
    (l : List (String × JsonValue)) (h : kv ∈ specEmitsObj p l) :
    ∃ q ∈ docPathsObj p l, kv.1 = cfgKey q ∨ kv.1 = lenKey q := by
  match l with
  | [] => simp [specEmitsObj] at h
  | (k, v) :: rest =>
    rw [show specEmitsObj p ((k, v) :: rest) =
      specEmits (p ++ "." ++ k) v ++ specEmitsObj p rest from rfl,
      List.mem_append] at h
    have hsplit : docPathsObj p ((k, v) :: rest) =
      docPaths (p ++ "." ++ k) v ++ docPathsObj p rest := rfl
    rcases h with h | h
    · obtain ⟨q, hq, hk⟩ := keys_specEmits (p ++ "." ++ k) v h
      refine ⟨q, ?_, hk⟩
      rw [hsplit]
      exact List.mem_append_left _ hq
    · obtain ⟨q, hq, hk⟩ := keys_specEmitsObj p rest h
      refine ⟨q, ?_, hk⟩
      rw [hsplit]
      exact List.mem_append_right _ hq

end

mutual

theorem len_mem_specEmits {p' : String} {k : Nat} (p : String) (v : JsonValue)
    (h : (p', k) ∈ arraysOf p v) : (lenKey p', JsonValue.num k) ∈ specEmits p v := by
  match v with
  | .null => simp [arraysOf] at h
  | .bool b => simp [arraysOf] at h
  | .num n => simp [arraysOf] at h
  | .str s => simp [arraysOf] at h
  | .arr a =>
    rw [show arraysOf p (.arr a) = arraysOfArr p a ++ [(p, a.length)] from rfl,
      List.mem_append] at h
    rw [show specEmits p (.arr a) =
      specEmitsArr p a ++ [(lenKey p, .num a.length)] from rfl, List.mem_append]
    rcases h with h | h
    · exact Or.inl (len_mem_specEmitsArr p a h)
    · rw [List.mem_singleton] at h
      rw [List.mem_singleton]
      rw [Prod.mk.injEq] at h
      rw [h.1, h.2]
      exact Or.inr rfl
  | .obj o => exact len_mem_specEmitsObj p o h

theorem len_mem_specEmitsArr {p' : String} {k : Nat} (p : String)
    (l : List JsonValue) (h : (p', k) ∈ arraysOfArr p l) :
    (lenKey p', JsonValue.num k) ∈ specEmitsArr p l := by
  match l with
  | [] => simp [arraysOfArr] at h
  | v :: rest =>
    rw [show arraysOfArr p (v :: rest) =
      arraysOf p v ++ arraysOfArr p rest from rfl, List.mem_append] at h
    rw [show specEmitsArr p (v :: rest) =
      specEmits p v ++ specEmitsArr p rest from rfl, List.mem_append]
    rcases h with h | h
    · exact Or.inl (len_mem_specEmits p v h)
    · exact Or.inr (len_mem_specEmitsArr p rest h)

theorem len_mem_specEmitsObj {p' : String} {k : Nat} (p : String)
    (l : List (String × JsonValue)) (h : (p', k) ∈ arraysOfObj p l) :
    (lenKey p', JsonValue.num k) ∈ specEmitsObj p l := by
  match l with
  | [] => simp [arraysOfObj] at h
  | (key, v) :: rest =>
    rw [show arraysOfObj p ((key, v) :: rest) =
      arraysOf (p ++ "." ++ key) v ++ arraysOfObj p rest from rfl,
      List.mem_append] at h
    rw [show specEmitsObj p ((key, v) :: rest) =
      specEmits (p ++ "." ++ key) v ++ specEmitsObj p rest from rfl,
      List.mem_append]
    rcases h with h | h
    · exact Or.inl (len_mem_specEmits (p ++ "." ++ key) v h)
    · exact Or.inr (len_mem_specEmitsObj p rest h)

end

theorem anonMap_visit_config {u : UsageMap} {p : String} {v : JsonValue}
    (hu : ∀ kv ∈ u, AnonValue kv.2) :
    ∀ kv ∈ visit_config u p v, AnonValue kv.2 := by
  intro kv h
  rw [visit_config_eq_foldIns] at h
  rcases mem_foldIns h with h | h
  · exact hu kv h
  · exact anon_specEmits p v h

theorem anonMap_walk_loop (plugins : List (String × JsonValue)) :
    ∀ (u : UsageMap), (∀ kv ∈ u, AnonValue kv.2) →
      ∀ kv ∈ plugins.foldl (fun u p => visit_config u p.1 p.2) u, AnonValue kv.2 := by
  induction plugins with
  | nil => exact fun u hu => hu
  | cons hd tl ih =>
    intro u hu
    exact ih (visit_config u hd.1 hd.2) (anonMap_visit_config hu)

/-- C1: anonymity of the usage map — for any list of plugin configuration
documents walked by the config-shape walker (each under its plugin name as
root path, starting from the empty map), every value in the emitted usage
map is a boolean, a number, or the literal token `"set"`.  In particular no
user-supplied string, array, or object literal from the input occurs as a
value, and every string leaf contributes only `"set"`. -/
theorem C1_anonymity (plugins : List (String × JsonValue))
    (kv : String × JsonValue) (h : kv ∈ walkPlugins plugins) : AnonValue kv.2 :=
  anonMap_walk_loop plugins [] (by intro kv h; simp at h) kv h

/-- Witness for C1 at a concrete configuration containing a sensitive
string: the emitted entry carries only the token `"set"`. -/
theorem C1_anonymity_witness :
    ((cfgKey "headers.key", JsonValue.str "set") ∈
      walkPlugins [("headers", JsonValue.obj [("key", JsonValue.str "secret")])])
    ∧ AnonValue (JsonValue.str "set") := by
  have hmem : (cfgKey "headers.key", JsonValue.str "set") ∈
      walkPlugins [("headers", JsonValue.obj [("key", JsonValue.str "secret")])] := by
    rw [show walkPlugins [("headers", JsonValue.obj [("key", JsonValue.str "secret")])] =
      [(cfgKey "headers.key", JsonValue.str "set")] from rfl]
    exact List.mem_singleton.mpr rfl
  exact ⟨hmem, C1_anonymity _ _ hmem⟩

/-- C2: opt-out semantics — when `APOLLO_TELEMETRY_DISABLED` equals exactly
`"true"` at the time of a successful factory build, the decorator returns
the built factory with the reporting worker not spawned (hence no file
write and no network request, which happen only on that worker); for any
other value of the variable — unset, empty, `"1"`, `"TRUE"`, anything but
`"true"` — the worker is spawned. -/
theorem C2_opt_out {E F : Type} (f : F) (env : Option String) :
    @create E F (.ok f) (some "true") = (.ok f, false)
    ∧ (env ≠ some "true" → @create E F (.ok f) env = (.ok f, true)) := by
  refine ⟨rfl, fun h => ?_⟩
  cases env with
  | none => rfl
  | some s =>
    have hs : s ≠ "true" := fun hc => h (by rw [hc])
    simp [create, hs]

/-- Witness for C2 at the value `"1"`: reporting stays enabled. -/
theorem C2_opt_out_witness :
    ((some "1" : Option String) ≠ some "true")
    ∧ @create String Nat (.ok 0) (some "1") = (.ok 0, true) :=
  ⟨by decide, (@C2_opt_out String Nat 0 (some "1")).2 (by decide)⟩

/-- A concrete instantiation of the external UUID codec (`str::parse` /
`to_string`), used to exercise the machine-id protocol on explicit
inputs: ids are the numbers 7 and 8, whose canonical forms parse back. -/
def demoParse (s : String) : Option Nat :=
  if s = "7" then some 7 else if s = "8" then some 8 else none

/-- Canonical form for `demoParse`'s ids. -/
def demoToStr (n : Nat) : String := toString n

/-- C3 fails on the code: with the machine-id file present but holding
unparseable contents, `get_machine_id` uses a fresh id (7) but leaves the
file untouched — the fresh id is never written back — so a subsequent
invocation does not read back the first run's id but generates its own
(8).  The write-back exists only in the file-absent branch. -/
theorem C3_counterexample :
    get_machine_id demoParse demoToStr (some "garbage") 7 true = (7, some "garbage")
    ∧ (get_machine_id demoParse demoToStr (some "garbage") 7 true).2 ≠
        some (demoToStr 7)
    ∧ (get_machine_id demoParse demoToStr
        (get_machine_id demoParse demoToStr (some "garbage") 7 true).2 8 true).1 = 8
    ∧ (get_machine_id demoParse demoToStr
        (get_machine_id demoParse demoToStr (some "garbage") 7 true).2 8 true).1 ≠ 7 := by
  refine ⟨rfl, ?_, rfl, by decide⟩
  decide

/-- C3 amended: when the machine-id file exists but its contents fail to
parse as a UUID, `get_machine_id` generates a fresh random UUID and uses it
for this run but does not write it back — the file keeps its old contents,
so a subsequent invocation with the resulting file state falls into the
same case and uses its own fresh UUID.  Only when the file is absent is the
generated UUID best-effort written back. -/
theorem C3_no_writeback {α : Type} (parse : String → Option α)
    (toStr : α → String) (contents : String) (fresh fresh2 : α)
    (writeOk : Bool) (h : parse contents = none) :
    get_machine_id parse toStr (some contents) fresh writeOk = (fresh, some contents)
    ∧ (get_machine_id parse toStr
        (get_machine_id parse toStr (some contents) fresh writeOk).2
        fresh2 writeOk).1 = fresh2
    ∧ get_machine_id parse toStr none fresh true = (fresh, some (toStr fresh)) := by
  refine ⟨?_, ?_, rfl⟩
  · simp [get_machine_id, h]
  · simp [get_machine_id, h]

/-- Witness for C3 amended, at the concrete codec and garbage contents. -/
theorem C3_no_writeback_witness :
    demoParse "garbage" = none
    ∧ (get_machine_id demoParse demoToStr (some "garbage") 7 true = (7, some "garbage")
      ∧ (get_machine_id demoParse demoToStr
          (get_machine_id demoParse demoToStr (some "garbage") 7 true).2 8 true).1 = 8
      ∧ get_machine_id demoParse demoToStr none 7 true = (7, some (demoToStr 7))) :=
  ⟨by decide, C3_no_writeback demoParse demoToStr "garbage" 7 8 true (by decide)⟩

/-- C4 fails on the code: for an argument with empty defaults and the
present raw values `["/etc/x.yaml"]`, the summariser emits the string
`"set"`, not the boolean `true` — `defaults != values` is checked first and
`[] ≠ ["/etc/x.yaml"]` sends it into the `"set"` branch. -/
theorem C4_counterexample :
    summariseArg [] "config-path" [] (some ["/etc/x.yaml"]) =
      [("args.config-path", JsonValue.str "set")]
    ∧ lookupUM (summariseArg [] "config-path" [] (some ["/etc/x.yaml"]))
        "args.config-path" ≠ some (JsonValue.bool true) := by
  refine ⟨rfl, ?_⟩
  rw [show lookupUM (summariseArg [] "config-path" [] (some ["/etc/x.yaml"]))
      "args.config-path" = some (JsonValue.str "set") from rfl]
  simp

/-- C4 amended: for every known argument whose default-value list is empty
and whose parsed raw values are present, the summariser emits
`args.<id> = true` (boolean) only when the raw-value list is itself empty
(a bare switch); when any raw value is present it emits
`args.<id> = "set"` instead. -/
theorem C4_empty_defaults (u : UsageMap) (id : String) (vs : List String) :
    summariseArg u id [] (some vs) =
      if vs = [] then insertUM u ("args." ++ id) (.bool true)
      else insertUM u ("args." ++ id) (.str "set") := by
  cases vs with
  | nil => rfl
  | cons a rest => simp [summariseArg]

/-- C5: non-empty-defaults rule — for every known argument whose
default-value list is non-empty: when raw values are present the
summariser emits nothing if they equal the defaults and
`args.<id> = "set"` if they differ; when raw values are absent it emits
nothing; and the equality used is list equality, i.e. element-wise string
equality over the ordered lists. -/
theorem C5_nonempty_defaults (u : UsageMap) (id : String)
    (defaults vs : List String) (h : defaults ≠ []) :
    (summariseArg u id defaults (some vs) =
      if defaults = vs then u
      else insertUM u ("args." ++ id) (.str "set"))
    ∧ summariseArg u id defaults none = u
    ∧ (defaults = vs ↔ List.Forall₂ (fun a b => a = b) defaults vs) := by
  obtain ⟨d, ds, rfl⟩ : ∃ d ds, defaults = d :: ds := by
    cases defaults with
    | nil => exact absurd rfl h
    | cons d ds => exact ⟨d, ds, rfl⟩
  refine ⟨?_, rfl, ?_⟩
  · by_cases hd : d :: ds = vs
    · subst hd
      simp [summariseArg]
    · simp [summariseArg, hd]
  · rw [List.forall₂_eq_eq_eq]

/-- Witness for C5: default `["info"]`, user value `["debug"]` — the entry
`args.log-level = "set"` is emitted. -/
theorem C5_nonempty_defaults_witness :
    (["info"] : List String) ≠ []
    ∧ ((summariseArg [] "log-level" ["info"] (some ["debug"]) =
        if (["info"] : List String) = ["debug"] then ([] : UsageMap)
        else insertUM [] ("args." ++ "log-level") (.str "set"))
      ∧ summariseArg [] "log-level" ["info"] none = []
      ∧ ((["info"] : List String) = ["debug"] ↔
          List.Forall₂ (fun a b => a = b) ["info"] ["debug"])) :=
  ⟨by decide, C5_nonempty_defaults [] "log-level" ["info"] ["debug"] (by decide)⟩

/-- C6: the config-shape walker follows the exact per-variant rules —
`visit_config` equals folding into the given map the emission list
`specEmits`, which is written verbatim from the spec's table: null emits
nothing; a boolean `b` emits `configuration.P = b`; a number `n` emits
`configuration.P = n` verbatim; a string emits `configuration.P = "set"`;
an array re-walks each element under the same path `P` in document order
(no index appended) and then emits `configuration.P.len = length`; an
object emits nothing at `P` and re-walks each key `k` under `P.k` in
document order.  The walker's entire effect is this ordered sequence of
writes applied to the output map. -/
theorem C6_walker_rules (u : UsageMap) (p : String) (v : JsonValue) :
    visit_config u p v = foldIns u (specEmits p v) :=
  visit_config_eq_foldIns u p v

/-- C7 fails on the code: in the document `[[null, null]]` walked at path
`root`, the inner array of length 2 is located at dotted path `root`
(array elements keep their parent's path), yet the emitted map binds
`configuration.root.len` to 1 — the outer array's length, written last,
overwrites the inner array's — so the map does not contain
`configuration.root.len = 2`. -/
theorem C7_counterexample :
    ("root", 2) ∈ arraysOf "root"
      (JsonValue.arr [JsonValue.arr [JsonValue.null, JsonValue.null]])
    ∧ lookupUM (visit_config [] "root"
        (JsonValue.arr [JsonValue.arr [JsonValue.null, JsonValue.null]]))
        (lenKey "root") = some (JsonValue.num 1)
    ∧ lookupUM (visit_config [] "root"
        (JsonValue.arr [JsonValue.arr [JsonValue.null, JsonValue.null]]))
        (lenKey "root") ≠ some (JsonValue.num 2) := by
  refine ⟨by decide, rfl, ?_⟩
  rw [show lookupUM (visit_config [] "root"
      (JsonValue.arr [JsonValue.arr [JsonValue.null, JsonValue.null]]))
      (lenKey "root") = some (JsonValue.num 1) from rfl]
  simp

/-- C7 amended: for every array located at dotted path `P` with length `k`
in the walked document, provided the key `configuration.P.len` is written
exactly once during the walk (no directly-nested array shares path `P` and
no other entry collides with the `.len` key), the emitted map contains
`configuration.P.len = k`; with colliding writers the key instead holds
the last writer's value.  Unconditionally, no key of the emitted map
contains an array index: every key is `configuration.Q` or
`configuration.Q.len` for some dotted path `Q` of the document, and these
paths are built from the root path and object keys only. -/
theorem C7_array_len (path : String) (D : JsonValue) (p : String) (k : Nat)
    (hmem : (p, k) ∈ arraysOf path D)
    (huniq : (specEmits path D).countP (fun kv => kv.1 == lenKey p) = 1) :
    lookupUM (visit_config [] path D) (lenKey p) = some (JsonValue.num k)
    ∧ ∀ kv ∈ visit_config [] path D,
        ∃ q ∈ docPaths path D, kv.1 = cfgKey q ∨ kv.1 = lenKey q := by
  constructor
  · rw [visit_config_eq_foldIns]
    have hlen := len_mem_specEmits path D hmem
    obtain ⟨l1, l2, heq, hno⟩ := countP_one_last huniq hlen
    rw [heq]
    exact lookup_foldIns_last [] l1 l2 (lenKey p) (.num k) hno
  · intro kv hkv
    rw [visit_config_eq_foldIns] at hkv
    rcases mem_foldIns hkv with h | h
    · simp at h
    · exact keys_specEmits path D h

/-- Witness for C7 amended, on `{"a": ["b"]}` walked at `root`: the array
at `root.a` has a unique `.len` writer and `configuration.root.a.len = 1`
is in the map. -/
theorem C7_array_len_witness :
    (("root.a", 1) ∈ arraysOf "root" (JsonValue.obj [("a", JsonValue.arr [JsonValue.str "b"])]))
    ∧ (specEmits "root" (JsonValue.obj [("a", JsonValue.arr [JsonValue.str "b"])])).countP
        (fun kv => kv.1 == lenKey "root.a") = 1
    ∧ lookupUM (visit_config [] "root"
        (JsonValue.obj [("a", JsonValue.arr [JsonValue.str "b"])]))
        (lenKey "root.a") = some (JsonValue.num 1)
    ∧ ∀ kv ∈ visit_config [] "root"
        (JsonValue.obj [("a", JsonValue.arr [JsonValue.str "b"])]),
        ∃ q ∈ docPaths "root" (JsonValue.obj [("a", JsonValue.arr [JsonValue.str "b"])]),
          kv.1 = cfgKey q ∨ kv.1 = lenKey q := by
  have h1 : ("root.a", 1) ∈ arraysOf "root"
      (JsonValue.obj [("a", JsonValue.arr [JsonValue.str "b"])]) := by decide
  have h2 : (specEmits "root"
      (JsonValue.obj [("a", JsonValue.arr [JsonValue.str "b"])])).countP
      (fun kv => kv.1 == lenKey "root.a") = 1 := by decide
  exact ⟨h1, h2,
    (C7_array_len "root" _ "root.a" 1 h1 h2).1,
    (C7_array_len "root" _ "root.a" 1 h1 h2).2⟩

/-- C8: inner-factory error propagation — when the inner factory's create
fails, the decorator's create returns exactly that error and spawns no
reporting worker (no reporting side effect); when it succeeds, the
decorator returns the inner factory's service factory unchanged. -/
theorem C8_error_propagation {E F : Type} (e : E) (f : F)
    (env env' : Option String) :
    @create E F (.error e) env = (.error e, false)
    ∧ (@create E F (.ok f) env').1 = .ok f :=
  ⟨rfl, rfl⟩

/-- C9: dispatcher silence — a failure at any stage of the report worker
(pretty serialisation, value serialisation, HTTP send/connect, reading the
response) makes `send` return that error's display form, which the worker
catches, logs at debug level exactly once, and discards; `dispatchReport`
is a total function with no error channel and no retry, so no failure is
propagated to the host.  A response with any HTTP status — 2xx or not —
is a success whose status is never inspected and whose body is returned
only to be discarded. -/
theorem C9_dispatcher_silence (e p c t body : String) (status : Nat) :
    (∀ compact httpResp readBody,
      dispatchReport (send (.error e) compact httpResp readBody) =
        ["failed to send anonymous usage: " ++ e])
    ∧ (∀ httpResp readBody,
      dispatchReport (send (.ok p) (.error e) httpResp readBody) =
        ["anonymous usage: " ++ p, "failed to send anonymous usage: " ++ e])
    ∧ (∀ readBody,
      dispatchReport (send (.ok p) (.ok c) (.error e) readBody) =
        ["anonymous usage: " ++ p, "failed to send anonymous usage: " ++ e])
    ∧ dispatchReport (send (.ok p) (.ok c) (.ok (status, body)) (.error e)) =
        ["anonymous usage: " ++ p, "failed to send anonymous usage: " ++ e]
    ∧ send (.ok p) (.ok c) (.ok (status, body)) (.ok t) =
        (["anonymous usage: " ++ p], .ok t)
    ∧ dispatchReport (send (.ok p) (.ok c) (.ok (status, body)) (.ok t)) =
        ["anonymous usage: " ++ p] :=
  ⟨fun _ _ _ => rfl, fun _ _ => rfl, fun _ => rfl, rfl, rfl, rfl⟩

/-- C10: in `visit_config` an array's `.len` entry is inserted only after
all elements have been recursively walked — the result on an array is
exactly the insertion of `configuration.path.len` into the map produced by
walking the elements — so the final binding of `configuration.path.len` is
the outermost array's length, even when elements are themselves arrays
whose earlier writes to the same key are overwritten. -/
theorem C10_len_after_elements (u : UsageMap) (p : String) (a : List JsonValue) :
    visit_config u p (.arr a) = insertUM (visit_arr u p a) (lenKey p) (.num a.length)
    ∧ lookupUM (visit_config u p (.arr a)) (lenKey p) = some (.num a.length) := by
  refine ⟨rfl, ?_⟩
  rw [show visit_config u p (.arr a) =
    insertUM (visit_arr u p a) (lenKey p) (.num a.length) from rfl]
  exact lookupUM_insert_self _ _ _

end Orbiter
